import Mathlib

/-
Verification of the cothread cooperative scheduler library.

The definitions below are shallow embeddings of the Python source:
  * cothread/cothread.py  — `_TimerQueue`, `_WakeupQueue`, `_Wakeup`,
    `_Scheduler`, `EventBase`, `EventQueue`, `Spawn`, `_Callback`
  * cothread/coselect.py  — `_Poller.notify_wakeup`, `_Scheduler.__wakeup_poll`
  * cothread/catools.py   — `_Subscription.__maybe_signal` / `__signal`,
    `caget_one`

Mutable heap references between objects (a `_Wakeup` held on a queue, whose
`woken()` flag is read back by the queue's garbage collection) are embedded
by identifying each wakeup object with a natural-number id and passing the
heap's view of the woken flags as an explicit predicate `woken : Nat → Bool`.
Python floats used for wall-clock times are embedded as rationals.
-/

namespace Cothread

/-! ### Wakeup reasons

cothread.py:
  `_WAKEUP_NORMAL = 0`, `_WAKEUP_TIMEOUT = 1`; the third reason, transferring
  an exception to another cothread, is encoded as a tuple (`sys.exc_info()`).
-/

inductive Reason where
  | normal
  | timeout
  | exc
  deriving DecidableEq, Repr

/-- Source `isinstance(reason, tuple)`: only the exception reason is a tuple. -/
def Reason.isTuple : Reason → Bool
  | .exc => true
  | _ => false

/-! ### `_WakeupQueue` (cothread.py lines 181-228) -/

structure WakeupQueue where
  /-- Source `__waiters`: ids of the `_Wakeup` objects pending wakeup. -/
  waiters : List Nat
  /-- Source `__garbage`: count of expired wakeup objects still physically present. -/
  garbage : Int
  deriving DecidableEq, Repr

/-- Source `_WakeupQueue.cancel`: increment the garbage count and rebuild the list,
keeping only not-yet-woken entries, once `2 * garbage > len(waiters)`. -/
def WakeupQueue.cancel (woken : Nat → Bool) (q : WakeupQueue) : WakeupQueue :=
  let g := q.garbage + 1
  if 2 * g > (q.waiters.length : Int) then
    { waiters := q.waiters.filter (fun t => !(woken t)), garbage := 0 }
  else
    { q with garbage := g }

/-! ### `_TimerQueue` (cothread.py lines 125-178) -/

structure TimerQueue where
  /-- Source `__timeouts`: absolute deadlines, kept sorted by `bisect` insertion. -/
  timeouts : List ℚ
  /-- Source `__wakeups`: ids of the wakeup objects, parallel to `timeouts`. -/
  wakeups : List Nat
  /-- Source `__garbage`: count of spent wakeups still physically present. -/
  garbage : Int
  deriving DecidableEq, Repr

/-- Source `bisect.bisect` insertion on the zipped parallel lists: a new entry is
placed before the first strictly later deadline (after any equal ones). -/
def TimerQueue.putPairs (x : ℚ) (w : Nat) : List (ℚ × Nat) → List (ℚ × Nat)
  | [] => [(x, w)]
  | (y, v) :: rest =>
    if x < y then (x, w) :: (y, v) :: rest else (y, v) :: TimerQueue.putPairs x w rest

/-- Source `_TimerQueue.put`: insert `(timeout, wakeup)` keeping deadlines sorted. -/
def TimerQueue.put (q : TimerQueue) (w : Nat) (t : ℚ) : TimerQueue :=
  let pairs := TimerQueue.putPairs t w (q.timeouts.zip q.wakeups)
  { q with timeouts := pairs.map Prod.fst, wakeups := pairs.map Prod.snd }

/-- Source `_TimerQueue.timeout`: earliest deadline, only read when non-empty
(`self.__timeouts[0]`; the default here is never reached in the source). -/
def TimerQueue.timeoutHead (q : TimerQueue) : ℚ :=
  q.timeouts.headI

/-- Source `_TimerQueue.cancel`: same garbage discipline as the wakeup queue, with
both parallel arrays rebuilt by zipping. -/
def TimerQueue.cancel (woken : Nat → Bool) (q : TimerQueue) : TimerQueue :=
  let g := q.garbage + 1
  if 2 * g > (q.timeouts.length : Int) then
    let kept := (q.timeouts.zip q.wakeups).filter (fun p => !(woken p.2))
    { timeouts := kept.map Prod.fst, wakeups := kept.map Prod.snd, garbage := 0 }
  else
    { q with garbage := g }

/-! ### `_Wakeup` (cothread.py lines 231-275) and `_Scheduler.__wakeup_task` -/

structure Wakeup where
  /-- Source `__task`: the suspended task's id; `none` once woken. -/
  task : Option Nat
  /-- Source `__queue` is set (the wakeup sits on a wait queue). -/
  hasQueue : Bool
  /-- Source `__timers` is set (the wakeup sits on the timer queue). -/
  hasTimers : Bool
  deriving DecidableEq, Repr

/-- Source `_Wakeup.woken`: the task reference has been dropped. -/
def Wakeup.woken (w : Wakeup) : Bool :=
  w.task.isNone

/-- The scheduler state a firing wakeup touches: the ready queue, the wait
queue referenced by `__queue` and the timer queue referenced by `__timers`. -/
structure Sched where
  ready : List (Nat × Reason)
  waitQueue : WakeupQueue
  timerQueue : TimerQueue
  deriving DecidableEq, Repr

/-- Source `_Scheduler.__wakeup_task` (lines 521-523): append `(task, reason)` to the
ready queue unless the reason is the exception tuple. -/
def wakeupTask (ready : List (Nat × Reason)) (task : Nat) (reason : Reason) :
    List (Nat × Reason) :=
  if reason.isTuple then ready else ready ++ [(task, reason)]

/-- Source `_Wakeup.wakeup` (lines 249-272).  On the first call the task is recorded
on the ready queue (via `__wakeup_task`), the wakeup is marked woken by
dropping `__task`, the queues not responsible for the wakeup are cancelled,
and `__queue` is dropped; `True` is returned.  Any later call returns `False`
and does nothing.  The source marks the wakeup woken before cancelling, so the
`woken` predicate given to the cancels already sees this wakeup as woken. -/
def Wakeup.wakeup (woken : Nat → Bool) (w : Wakeup) (reason : Reason) (s : Sched) :
    Bool × Wakeup × Sched :=
  match w.task with
  | some t =>
    let s1 : Sched := { s with ready := wakeupTask s.ready t reason }
    let s2 : Sched :=
      if reason ≠ Reason.normal ∧ w.hasQueue = true then
        { s1 with waitQueue := s1.waitQueue.cancel woken }
      else s1
    let s3 : Sched :=
      if reason ≠ Reason.timeout ∧ w.hasTimers = true then
        { s2 with timerQueue := s2.timerQueue.cancel woken }
      else s2
    (true, { task := none, hasQueue := false, hasTimers := w.hasTimers }, s3)
  | none => (false, w, s)

/-- C1: the first call to `w.wakeup(reason)` returns `True`, marks `w` as
woken, and appends `w`'s task to the ready queue unless the reason is the
exception form; every subsequent call (on a woken wakeup) returns `False`
and leaves both the wakeup and the scheduler state unchanged. -/
theorem wakeup_fires_at_most_once (woken : Nat → Bool) (w : Wakeup) (t : Nat)
    (r : Reason) (s : Sched) :
    (w.task = some t →
      (Wakeup.wakeup woken w r s).1 = true ∧
      (Wakeup.wakeup woken w r s).2.1.woken = true ∧
      (Wakeup.wakeup woken w r s).2.2.ready =
        (if r.isTuple then s.ready else s.ready ++ [(t, r)])) ∧
    (w.woken = true → Wakeup.wakeup woken w r s = (false, w, s)) := by
  constructor
  · intro h
    unfold Wakeup.wakeup
    rw [h]
    refine ⟨rfl, rfl, ?_⟩
    simp only [wakeupTask]
    split <;> split <;> rfl
  · intro h
    have : w.task = none := Option.isNone_iff_eq_none.mp h
    simp [Wakeup.wakeup, this]

/-- Witness for C1 at a concrete wakeup: a live wakeup on both queues fires
with the timeout reason, and the spent wakeup refuses to fire again. -/
theorem wakeup_fires_at_most_once_witness :
    ((Wakeup.wakeup (fun _ => false) ⟨some 3, true, true⟩ Reason.timeout
        ⟨[], ⟨[], 0⟩, ⟨[], [], 0⟩⟩).1 = true ∧
      (Wakeup.wakeup (fun _ => false) ⟨some 3, true, true⟩ Reason.timeout
        ⟨[], ⟨[], 0⟩, ⟨[], [], 0⟩⟩).2.1.woken = true ∧
      (Wakeup.wakeup (fun _ => false) ⟨some 3, true, true⟩ Reason.timeout
        ⟨[], ⟨[], 0⟩, ⟨[], [], 0⟩⟩).2.2.ready =
        (if Reason.timeout.isTuple then ([] : List (Nat × Reason))
         else [] ++ [(3, Reason.timeout)])) ∧
    Wakeup.wakeup (fun _ => false) ⟨none, false, true⟩ Reason.normal
        ⟨[], ⟨[], 0⟩, ⟨[], [], 0⟩⟩ =
      (false, ⟨none, false, true⟩, ⟨[], ⟨[], 0⟩, ⟨[], [], 0⟩⟩) :=
  ⟨(wakeup_fires_at_most_once (fun _ => false) ⟨some 3, true, true⟩ 3
      Reason.timeout ⟨[], ⟨[], 0⟩, ⟨[], [], 0⟩⟩).1 rfl,
   (wakeup_fires_at_most_once (fun _ => false) ⟨none, false, true⟩ 0
      Reason.normal ⟨[], ⟨[], 0⟩, ⟨[], [], 0⟩⟩).2 rfl⟩

/-- C6: each `cancel()` call increments the garbage count; the queue's storage
is rebuilt — retaining exactly the not-yet-woken entries and resetting the
garbage count to zero — precisely when twice the (incremented) garbage count
exceeds the physical queue length; and, whenever the garbage count accounts
exactly for the spent entries physically present, that threshold says
precisely that the garbage exceeds the live entries. -/
theorem queue_cancel_garbage_collection (woken : Nat → Bool)
    (q : WakeupQueue) (tq : TimerQueue) :
    (¬ 2 * (q.garbage + 1) > (q.waiters.length : Int) →
      q.cancel woken = ⟨q.waiters, q.garbage + 1⟩) ∧
    (2 * (q.garbage + 1) > (q.waiters.length : Int) →
      q.cancel woken = ⟨q.waiters.filter (fun t => !(woken t)), 0⟩) ∧
    (¬ 2 * (tq.garbage + 1) > (tq.timeouts.length : Int) →
      tq.cancel woken = ⟨tq.timeouts, tq.wakeups, tq.garbage + 1⟩) ∧
    (2 * (tq.garbage + 1) > (tq.timeouts.length : Int) →
      tq.cancel woken =
        ⟨((tq.timeouts.zip tq.wakeups).filter (fun p => !(woken p.2))).map Prod.fst,
         ((tq.timeouts.zip tq.wakeups).filter (fun p => !(woken p.2))).map Prod.snd,
         0⟩) ∧
    (q.garbage + 1 + ((q.waiters.filter (fun t => !(woken t))).length : Int) =
        (q.waiters.length : Int) →
      (2 * (q.garbage + 1) > (q.waiters.length : Int) ↔
        q.garbage + 1 > ((q.waiters.filter (fun t => !(woken t))).length : Int))) := by
  refine ⟨fun h => ?_, fun h => ?_, fun h => ?_, fun h => ?_, fun h => ?_⟩
  · simp only [WakeupQueue.cancel]
    rw [if_neg h]
  · simp only [WakeupQueue.cancel]
    rw [if_pos h]
  · simp only [TimerQueue.cancel]
    rw [if_neg h]
  · simp only [TimerQueue.cancel]
    rw [if_pos h]
  · omega

/-- Witness for C6: a queue of two waiters with one already-spent entry is
rebuilt down to its single live waiter; a fresh timer queue just counts. -/
theorem queue_cancel_garbage_collection_witness :
    WakeupQueue.cancel (fun t => t == 0) ⟨[0, 1], 1⟩ = ⟨[1], 0⟩ ∧
    TimerQueue.cancel (fun t => t == 0) ⟨[2, 3], [4, 5], 0⟩ = ⟨[2, 3], [4, 5], 1⟩ := by
  constructor
  · rw [(queue_cancel_garbage_collection (fun t => t == 0)
      ⟨[0, 1], 1⟩ ⟨[], [], 0⟩).2.1 (by decide)]
    rfl
  · rw [(queue_cancel_garbage_collection (fun t => t == 0)
      ⟨[], 0⟩ ⟨[2, 3], [4, 5], 0⟩).2.2.1 (by decide)]
    decide

/-! ### The scheduler's poll delay (cothread.py `__schedule_loop`, lines 383-404) -/

/-- The delay passed to `__poll_suspend` after each tick: `0` when there are
ready or yielded tasks, `max(first timer - now, 0.001)` when timers wait, and
`None` (here `none`, block indefinitely) otherwise. -/
def scheduleDelay (ready : List (Nat × Reason)) (yieldQueue : WakeupQueue)
    (timerQueue : TimerQueue) (now : ℚ) : Option ℚ :=
  if ready ≠ [] ∨ yieldQueue.waiters ≠ [] then some 0
  else if timerQueue.timeouts ≠ [] then
    some (max (timerQueue.timeoutHead - now) (1 / 1000))
  else none

/-- Source `putPairs` only adds the new entry: any first component of the result is
the inserted deadline or one already present. -/
theorem putPairs_mem_fst (x z : ℚ) (w : Nat) (l : List (ℚ × Nat))
    (h : z ∈ (TimerQueue.putPairs x w l).map Prod.fst) :
    z = x ∨ z ∈ l.map Prod.fst := by
  induction l with
  | nil => simpa [TimerQueue.putPairs] using h
  | cons p rest ih =>
    obtain ⟨y, v⟩ := p
    simp only [TimerQueue.putPairs] at h
    by_cases hxy : x < y
    · rw [if_pos hxy] at h
      simpa using h
    · rw [if_neg hxy] at h
      simp only [List.map_cons, List.mem_cons] at h ⊢
      rcases h with h | h
      · exact Or.inr (Or.inl h)
      · rcases ih h with h | h
        · exact Or.inl h
        · exact Or.inr (Or.inr h)

/-- The `bisect` insertion of `_TimerQueue.put` preserves sortedness of the
deadline list. -/
theorem putPairs_sorted (x : ℚ) (w : Nat) (l : List (ℚ × Nat))
    (h : (l.map Prod.fst).Sorted (· ≤ ·)) :
    ((TimerQueue.putPairs x w l).map Prod.fst).Sorted (· ≤ ·) := by
  induction l with
  | nil => simp [TimerQueue.putPairs]
  | cons p rest ih =>
    obtain ⟨y, v⟩ := p
    simp only [List.map_cons, List.sorted_cons] at h
    by_cases hxy : x < y
    · simp only [TimerQueue.putPairs, if_pos hxy, List.map_cons, List.sorted_cons]
      refine ⟨?_, h.1, h.2⟩
      intro b hb
      rcases List.mem_cons.mp hb with rfl | hb
      · exact le_of_lt hxy
      · exact le_of_lt (lt_of_lt_of_le hxy (h.1 b hb))
    · simp only [TimerQueue.putPairs, if_neg hxy, List.map_cons, List.sorted_cons]
      refine ⟨?_, ih h.2⟩
      intro b hb
      rcases putPairs_mem_fst x b w rest hb with rfl | hb
      · exact le_of_not_lt hxy
      · exact h.1 b hb

/-- Source `_TimerQueue.put` keeps the deadlines sorted (the parallel arrays are
assumed to have matching lengths, as maintained by the source). -/
theorem TimerQueue.put_sorted (q : TimerQueue) (w : Nat) (t : ℚ)
    (hlen : q.timeouts.length ≤ q.wakeups.length)
    (h : q.timeouts.Sorted (· ≤ ·)) :
    (q.put w t).timeouts.Sorted (· ≤ ·) := by
  have hz : (q.timeouts.zip q.wakeups).map Prod.fst = q.timeouts :=
    List.map_fst_zip _ _ hlen
  simpa [TimerQueue.put] using
    putPairs_sorted t w (q.timeouts.zip q.wakeups) (by rw [hz]; exact h)

/-- C5: the delay after a tick is `0` when the ready or yield queue is
non-empty; otherwise, with timers pending and their deadline list sorted (as
`put` maintains), it is the earliest deadline minus now, floored at one
millisecond; otherwise the scheduler blocks indefinitely (`none`). -/
theorem schedule_delay_spec (ready : List (Nat × Reason)) (yq : WakeupQueue)
    (tq : TimerQueue) (now : ℚ) :
    (ready ≠ [] ∨ yq.waiters ≠ [] → scheduleDelay ready yq tq now = some 0) ∧
    (ready = [] → yq.waiters = [] → tq.timeouts ≠ [] →
      tq.timeouts.Sorted (· ≤ ·) →
      ∃ e, e ∈ tq.timeouts ∧ (∀ d ∈ tq.timeouts, e ≤ d) ∧
        scheduleDelay ready yq tq now = some (max (e - now) (1 / 1000))) ∧
    (ready = [] → yq.waiters = [] → tq.timeouts = [] →
      scheduleDelay ready yq tq now = none) := by
  refine ⟨fun h => ?_, fun h1 h2 h3 h4 => ?_, fun h1 h2 h3 => ?_⟩
  · simp only [scheduleDelay]
    rw [if_pos h]
  · cases htq : tq.timeouts with
    | nil => exact absurd htq h3
    | cons a rest =>
      have h5 : ∀ b ∈ rest, a ≤ b := by
        rw [htq] at h4
        exact (List.sorted_cons.mp h4).1
      refine ⟨a, ?_, ?_, ?_⟩
      · exact List.mem_cons_self a rest
      · intro d hd
        rcases List.mem_cons.mp hd with rfl | hd
        · exact le_refl d
        · exact h5 d hd
      · simp only [scheduleDelay, h1, h2, TimerQueue.timeoutHead, htq]
        simp
  · simp [scheduleDelay, h1, h2, h3]

/-- Witness for C5: with nothing ready and timers at deadlines 2 and 5, at
time 1 the scheduler sleeps exactly one second. -/
theorem schedule_delay_spec_witness :
    ∃ e, e ∈ ([2, 5] : List ℚ) ∧ (∀ d ∈ ([2, 5] : List ℚ), e ≤ d) ∧
      scheduleDelay [] ⟨[], 0⟩ ⟨[2, 5], [0, 1], 0⟩ 1 = some (max (e - 1) (1 / 1000)) :=
  (schedule_delay_spec [] ⟨[], 0⟩ ⟨[2, 5], [0, 1], 0⟩ 1).2.1 rfl rfl
    (by decide) (by norm_num [List.sorted_cons])

/-! ### Poll event distribution

coselect.py `_Poller.notify_wakeup` (lines 224-236) and
cothread.py `_Scheduler.__wakeup_poll` (lines 525-550).  `__wakeup_poll`
iterates over the `(file, events)` pairs of the poll result and, for each
descriptor, offers the events to that descriptor's pollers in order with
`events &= ~poller.notify_wakeup(file, events)`; the functions below embed
that per-descriptor loop.  Event masks are natural numbers used bitwise.
-/

def POLLERR : Nat := 8
def POLLHUP : Nat := 16
def POLLNVAL : Nat := 32

/-- Source `POLLEXTRA = POLLERR | POLLHUP | POLLNVAL`: always of interest, never
consumed. -/
def POLLEXTRA : Nat := POLLERR ||| POLLHUP ||| POLLNVAL

structure Poller where
  /-- Source `self.events[file]`: the event mask registered for the descriptor
  under consideration. -/
  mask : Nat
  /-- Source `self.__ready_list.get(file, 0)`: events accumulated for delivery. -/
  ready : Nat
  /-- Whether `self.wakeup.wakeup(_WAKEUP_NORMAL)` has been invoked. -/
  awoken : Bool
  deriving DecidableEq, Repr

/-- Source `_Poller.notify_wakeup`: keep only the events selected by our mask plus
the error events; when non-empty, record them and wake our task; report as
consumed everything kept except the error events. -/
def Poller.notifyWakeup (p : Poller) (events : Nat) : Poller × Nat :=
  let ev := events &&& (p.mask ||| POLLEXTRA)
  (if ev ≠ 0 then { p with ready := p.ready ||| ev, awoken := true } else p,
   Nat.ldiff ev POLLEXTRA)

/-- The inner loop of `__wakeup_poll` for one descriptor: each poller is
notified in order and the events it consumed are withheld from the rest. -/
def wakeupPollFile : Nat → List Poller → List Poller
  | _, [] => []
  | events, p :: ps =>
    (p.notifyWakeup events).1 ::
      wakeupPollFile (Nat.ldiff events (p.notifyWakeup events).2) ps

/-- The sequence of event sets offered to successive pollers of the same
descriptor during `__wakeup_poll`. -/
def offeredEvents : Nat → List Poller → List Nat
  | _, [] => []
  | events, p :: ps =>
    events :: offeredEvents (Nat.ldiff events (p.notifyWakeup events).2) ps

theorem ldiff_land_self (a b : Nat) : Nat.ldiff a b &&& b = 0 := by
  apply Nat.eq_of_testBit_eq
  intro i
  simp only [Nat.testBit_land, Nat.testBit_ldiff, Nat.zero_testBit]
  cases a.testBit i <;> cases b.testBit i <;> rfl

theorem ldiff_land_congr (a b m : Nat) (h : b &&& m = 0) :
    Nat.ldiff a b &&& m = a &&& m := by
  apply Nat.eq_of_testBit_eq
  intro i
  have hb := congrArg (fun n => n.testBit i) h
  simp only [Nat.testBit_land, Nat.zero_testBit] at hb
  simp only [Nat.testBit_land, Nat.testBit_ldiff]
  cases a.testBit i <;> cases hbb : b.testBit i <;> cases hm : m.testBit i <;>
    simp_all

theorem land_lor_land_self (a b m : Nat) : (a &&& (b ||| m)) &&& m = a &&& m := by
  apply Nat.eq_of_testBit_eq
  intro i
  simp only [Nat.testBit_land, Nat.testBit_lor]
  cases a.testBit i <;> cases b.testBit i <;> cases m.testBit i <;> rfl

theorem notifyWakeup_ready (p : Poller) (events : Nat) :
    (p.notifyWakeup events).1.ready =
      p.ready ||| (events &&& (p.mask ||| POLLEXTRA)) := by
  simp only [Poller.notifyWakeup]
  split
  · rfl
  · next h =>
    have h0 : events &&& (p.mask ||| POLLEXTRA) = 0 := by
      by_contra hc
      exact h hc
    simp [h0]

/-- C2: in the distribution of a poll result to one descriptor's pollers,
the i-th poller receives (accumulates into its ready set) exactly the events
offered to it intersected with its mask plus the error events; what it
consumed, less the error events, is withheld from the events offered to the
next poller; and the error-class events of the original event set reach every
poller undiminished. -/
theorem wakeup_poll_event_consumption (events : Nat) (ps : List Poller) :
    ∀ i, i < ps.length →
      ((wakeupPollFile events ps).getD i ⟨0, 0, false⟩).ready =
        (ps.getD i ⟨0, 0, false⟩).ready |||
          ((offeredEvents events ps).getD i 0 &&&
            ((ps.getD i ⟨0, 0, false⟩).mask ||| POLLEXTRA)) ∧
      (i + 1 < ps.length →
        (offeredEvents events ps).getD (i + 1) 0 =
          Nat.ldiff ((offeredEvents events ps).getD i 0)
            (Nat.ldiff ((offeredEvents events ps).getD i 0 &&&
              ((ps.getD i ⟨0, 0, false⟩).mask ||| POLLEXTRA)) POLLEXTRA)) ∧
      (offeredEvents events ps).getD i 0 &&& POLLEXTRA = events &&& POLLEXTRA ∧
      ((offeredEvents events ps).getD i 0 &&&
          ((ps.getD i ⟨0, 0, false⟩).mask ||| POLLEXTRA)) &&& POLLEXTRA =
        events &&& POLLEXTRA := by
  induction ps generalizing events with
  | nil =>
    intro i hi
    simp at hi
  | cons p ps ih =>
    intro i hi
    cases i with
    | zero =>
      have hoff : (offeredEvents events (p :: ps)).getD 0 0 = events := rfl
      refine ⟨?_, ?_, ?_, ?_⟩
      · simpa [wakeupPollFile, offeredEvents] using notifyWakeup_ready p events
      · intro h1
        have h1p : ps ≠ [] := by
          intro hc
          rw [hc] at h1
          simp at h1
        cases ps with
        | nil => exact absurd rfl h1p
        | cons q qs =>
          simp [offeredEvents, Poller.notifyWakeup]
      · rw [hoff]
      · rw [hoff]
        exact land_lor_land_self events p.mask POLLEXTRA
    | succ j =>
      have hj : j < ps.length := by simpa using hi
      have H := ih (Nat.ldiff events (p.notifyWakeup events).2) j hj
      have hcons : (p.notifyWakeup events).2 &&& POLLEXTRA = 0 :=
        ldiff_land_self (events &&& (p.mask ||| POLLEXTRA)) POLLEXTRA
      have hpres : Nat.ldiff events (p.notifyWakeup events).2 &&& POLLEXTRA =
          events &&& POLLEXTRA :=
        ldiff_land_congr events (p.notifyWakeup events).2 POLLEXTRA hcons
      refine ⟨?_, ?_, ?_, ?_⟩
      · simpa [wakeupPollFile, offeredEvents] using H.1
      · intro h1
        have h1j : j + 1 < ps.length := by simpa using h1
        simpa [wakeupPollFile, offeredEvents] using H.2.1 h1j
      · have := H.2.2.1
        rw [hpres] at this
        simpa [offeredEvents] using this
      · have := H.2.2.2
        rw [hpres] at this
        simpa [offeredEvents, wakeupPollFile] using this

/-- Witness for C2: two pollers both registered for `POLLIN = 1`, offered
`POLLIN | POLLHUP = 17`: the second poller is still offered the `POLLHUP`
error event although `POLLIN` was consumed by the first. -/
theorem wakeup_poll_event_consumption_witness :
    ((wakeupPollFile 17 [⟨1, 0, false⟩, ⟨1, 0, false⟩]).getD 1 ⟨0, 0, false⟩).ready =
      (([⟨1, 0, false⟩, ⟨1, 0, false⟩] : List Poller).getD 1 ⟨0, 0, false⟩).ready |||
        ((offeredEvents 17 [⟨1, 0, false⟩, ⟨1, 0, false⟩]).getD 1 0 &&&
          ((([⟨1, 0, false⟩, ⟨1, 0, false⟩] : List Poller).getD 1 ⟨0, 0, false⟩).mask |||
            POLLEXTRA)) ∧
    (offeredEvents 17 [⟨1, 0, false⟩, ⟨1, 0, false⟩]).getD 1 0 &&& POLLEXTRA =
      17 &&& POLLEXTRA :=
  ⟨(wakeup_poll_event_consumption 17 [⟨1, 0, false⟩, ⟨1, 0, false⟩] 1 (by decide)).1,
   (wakeup_poll_event_consumption 17 [⟨1, 0, false⟩, ⟨1, 0, false⟩] 1 (by decide)).2.2.1⟩

/-! ### Cross-thread callback channel (cothread.py `_Callback`, lines 951-984) -/

structure CallbackState where
  /-- Source `self.values`: the concurrency-safe FIFO of pending `(action, args)`
  entries (entries abstracted to ids). -/
  values : List Nat
  /-- Source `self.waiting`: whether the dispatcher may be blocked in the poll. -/
  waiting : Bool
  /-- Unread wakeup bytes in the self-pipe. -/
  pipeBytes : Nat
  deriving DecidableEq, Repr

/-- Source `_Callback.__call__` (lines 978-984): append the entry; then, if
`waiting` is observed true, clear it and write one byte to the pipe. -/
def callbackPost (s : CallbackState) (a : Nat) : CallbackState :=
  let s1 := { s with values := s.values ++ [a] }
  if s1.waiting then { s1 with waiting := false, pipeBytes := s1.pipeBytes + 1 }
  else s1

/-- The head of each `callback_events` iteration (lines 962-966): set
`waiting = True`; when the FIFO is empty, block in the poll and then consume
all pending wakeup bytes.  The loop then proceeds directly to the drain: no
statement of the dispatcher assigns `waiting = False`. -/
def callbackEventsHead (s : CallbackState) : CallbackState :=
  let s1 := { s with waiting := true }
  if s1.values.isEmpty then { s1 with pipeBytes := 0 } else s1

/-- The drain of one `callback_events` iteration (lines 968-976): pop and run
every queued entry, in FIFO order. -/
def callbackDrain (s : CallbackState) : CallbackState × List Nat :=
  ({ s with values := [] }, s.values)

/-- C4 (counterexample): the claim has the `waiting` flag cleared inside the
dispatcher before the FIFO is drained.  With one entry queued and `waiting`
false, the dispatcher's loop head leaves `waiting = true` and the drain that
follows pops that entry with the flag still set: the dispatcher never clears
`waiting`. -/
theorem callback_waiting_cleared_cex :
    (callbackEventsHead ⟨[7], false, 0⟩).waiting = true ∧
    (callbackDrain (callbackEventsHead ⟨[7], false, 0⟩)).2 = [7] := by
  decide

/-- C4 (amended): each iteration of the dispatcher loop sets the waiting flag
to true at its start; the flag is cleared not by the dispatcher but by a
posting thread: a post that observes `waiting` true clears it and writes
exactly one wakeup byte to the pipe, a post that observes it false writes no
byte, and every post appends its entry to the FIFO, which the dispatcher
drains in order. -/
theorem callback_waiting_cleared_by_poster (s : CallbackState) (a : Nat) :
    (callbackEventsHead s).waiting = true ∧
    callbackPost s a =
      ⟨s.values ++ [a], false, s.pipeBytes + (if s.waiting then 1 else 0)⟩ ∧
    (callbackDrain s).2 = s.values ∧ (callbackDrain s).1.values = [] := by
  refine ⟨?_, ?_, rfl, rfl⟩
  · simp only [callbackEventsHead]
    split <;> rfl
  · by_cases hw : s.waiting
    · simp [callbackPost, hw]
    · simp [callbackPost, hw]

/-! ### Task exceptions

cothread.py `Spawn.__run` (lines 667-694) and `Spawn.Wait` (lines 701-721).
-/

/-- Source `Spawn.__result` once set: `(True, value)` for success (the value may be
`None`), `(False, exc_info)` for a postponed exception. -/
inductive RunResult where
  | success (v : Option Nat)
  | failure (e : Nat)
  deriving DecidableEq, Repr

/-- Source `Spawn.__run`: evaluate the task function (an `Except` models its normal
or exceptional outcome).  An exception is stored for `Wait` when
`raise_on_wait` is set; otherwise it is reported to stderr (the returned
flag) and the result becomes `(True, None)`. -/
def spawnRun (outcome : Except Nat Nat) (raiseOnWait : Bool) : RunResult × Bool :=
  match outcome with
  | .ok v => (.success (some v), false)
  | .error e => if raiseOnWait then (.failure e, false) else (.success none, true)

/-- Source `Spawn.Wait` once the result is present: return the value of a success,
re-raise the stored exception of a failure. -/
def spawnWait : RunResult → Except Nat (Option Nat)
  | .success v => .ok v
  | .failure e => .error e

/-- C8: when the task function raises `e`, `Wait()` re-raises `e` if the task
was spawned with `raise_on_wait = True`; with the default
`raise_on_wait = False` the exception is reported to stderr inside the task
and `Wait()` returns `None`. -/
theorem spawn_exception_propagation (e : Nat) :
    spawnWait (spawnRun (.error e) true).1 = .error e ∧
    (spawnRun (.error e) true).2 = false ∧
    (spawnRun (.error e) false).2 = true ∧
    spawnWait (spawnRun (.error e) false).1 = .ok none :=
  ⟨rfl, rfl, rfl, rfl⟩

/-! ### `caget_one` count clamping (catools.py lines 608-648) -/

/-- The count clamp in `caget_one` after the channel connects: a negative
request becomes the channel's full element count, a positive request is
capped by it, and zero passes through (native default length). -/
def clampCount (count : Int) (elementCount : Int) : Int :=
  if count < 0 then elementCount
  else if count > 0 then min count elementCount
  else count

/-- C9: the clamp maps a negative count to the channel element count, reduces
a positive count to the minimum of itself and the element count, and passes a
zero count through unchanged. -/
theorem caget_count_clamp (c ec : Int) :
    (c < 0 → clampCount c ec = ec) ∧
    (0 < c → clampCount c ec = min c ec) ∧
    clampCount 0 ec = 0 := by
  refine ⟨fun h => ?_, fun h => ?_, ?_⟩
  · simp [clampCount, h]
  · have h1 : ¬ c < 0 := by omega
    simp [clampCount, h1, h]
  · simp [clampCount]

/-- Witness for C9: requests of -1, 10 and 0 elements against a channel of 4
elements. -/
theorem caget_count_clamp_witness :
    clampCount (-1) 4 = 4 ∧ clampCount 10 4 = min 10 4 ∧ clampCount 0 4 = 0 :=
  ⟨(caget_count_clamp (-1) 4).1 (by decide),
   (caget_count_clamp 10 4).2.1 (by decide),
   (caget_count_clamp 0 4).2.2⟩

/-! ### EventBase and EventQueue (cothread.py lines 588-895)

`EventBase` owns a wait queue and the count `__wait_abort` of aborted waits
pending emulation.  Waiters on the wait queue are wakeup ids; in the
sequential trace semantics below the wait queue stays empty (a blocked
`Wait` is a no-op and its later completion is a separate `wait` step), so
the woken-flag view is the constantly-false predicate `noWoken`.
-/

/-- The single-wake scan of `_WakeupQueue.wake` (lines 207-215): fire the
first wakeup that actually wakes, count each skipped spent wakeup as garbage
decrement, drop the scanned prefix.  Returns the remaining waiters, the
garbage delta, and the ids that actually fired. -/
def wakeScan (woken : Nat → Bool) : List Nat → List Nat × Int × List Nat
  | [] => ([], 0, [])
  | w :: ws =>
    if woken w then
      let r := wakeScan woken ws
      (r.1, r.2.1 - 1, r.2.2)
    else (ws, 0, [w])

/-- Source `_WakeupQueue.wake` (lines 200-216). -/
def WakeupQueue.wake (woken : Nat → Bool) (q : WakeupQueue) (wakeAll : Bool) :
    WakeupQueue × List Nat :=
  if q.waiters = [] then (q, [])
  else if wakeAll then
    (⟨[], 0⟩, q.waiters.filter (fun w => !(woken w)))
  else
    let r := wakeScan woken q.waiters
    (⟨r.1, q.garbage + r.2.1⟩, r.2.2)

structure EventQueue where
  /-- Source `EventBase.__wait_queue`. -/
  waitQueue : WakeupQueue
  /-- Source `EventBase.__wait_abort`. -/
  waitAbort : Nat
  /-- Source `EventQueue.__queue`: the queued values. -/
  queue : List Nat
  /-- Source `EventQueue.__closed`. -/
  closed : Bool
  /-- Source `EventQueue.__max_length` (`none` = unbounded). -/
  maxLength : Option Nat
  deriving DecidableEq, Repr

/-- Source `EventBase._Wakeup` (lines 613-627): with an abort credit pending and a
single wake requested, consume one credit and return `False`; otherwise zero
the credits, wake one or all waiters and return `True`.  The fired wakeup
ids are also returned. -/
def eventWakeup (woken : Nat → Bool) (q : EventQueue) (wakeAll : Bool) :
    Bool × EventQueue × List Nat :=
  if 0 < q.waitAbort ∧ wakeAll = false then
    (false, { q with waitAbort := q.waitAbort - 1 }, [])
  else
    let r := q.waitQueue.wake woken wakeAll
    (true, { q with waitAbort := 0, waitQueue := r.1 }, r.2)

/-- Source `EventQueue.Signal` (lines 865-874).  `none` models the assertion
failure on a closed queue.  Below the length bound the value is appended and
one waiter woken; if the wakeup reports an aborted wait the queue's head —
the just-appended value whenever the abort-credit invariant holds — is
popped again.  At the bound `False` is returned and nothing changes. -/
def EventQueue.Signal (woken : Nat → Bool) (q : EventQueue) (v : Nat) :
    Option (Bool × EventQueue × List Nat) :=
  if q.closed then none
  else if (match q.maxLength with
           | none => true
           | some m => decide (q.queue.length < m)) = true then
    let q1 : EventQueue := { q with queue := q.queue ++ [v] }
    let r := eventWakeup woken q1 false
    if r.1 = false then
      some (true, { r.2.1 with queue := r.2.1.queue.tail }, r.2.2)
    else
      some (true, r.2.1, r.2.2)
  else some (false, q, [])

/-- Source `EventQueue.AbortWait` (lines 857-863): consume the head value now, or
book an abort credit on a queue that is empty but not closed. -/
def EventQueue.AbortWait (q : EventQueue) : EventQueue :=
  if q.queue ≠ [] then { q with queue := q.queue.tail }
  else if q.closed = false then { q with waitAbort := q.waitAbort + 1 }
  else q

/-- The non-blocking outcomes of `EventQueue.Wait` (lines 846-855): pop the
head when non-empty, raise `StopIteration` when empty and closed, suspend
otherwise. -/
inductive WaitOutcome where
  | got (v : Nat)
  | stopIter
  | blocked
  deriving DecidableEq, Repr

def EventQueue.WaitStep (q : EventQueue) : WaitOutcome × EventQueue :=
  match q.queue with
  | v :: rest => (.got v, { q with queue := rest })
  | [] => if q.closed then (.stopIter, q) else (.blocked, q)

/-- Source `EventQueue.close` (lines 880-885): set the closed flag and wake all. -/
def EventQueue.close (woken : Nat → Bool) (q : EventQueue) : EventQueue × List Nat :=
  let q1 : EventQueue := { q with closed := true }
  let r := eventWakeup woken q1 true
  (r.2.1, r.2.2)

/-! #### Trace semantics for the conservation property of C7 -/

inductive QOp where
  | signal (v : Nat)
  | wait
  | abortWait
  | close
  deriving DecidableEq, Repr

/-- No task is suspended on the wait queue in the sequential traces. -/
def noWoken : Nat → Bool := fun _ => false

structure QTrace where
  q : EventQueue
  /-- Values returned by completed `Wait()` calls. -/
  returned : Multiset Nat
  /-- Signalled values that were neither rejected by the length bound nor
  immediately consumed by an aborted wait (the abort-consumed head is erased
  again on a later `AbortWait` of a non-empty queue). -/
  accepted : Multiset Nat
  deriving DecidableEq

def qStep (t : QTrace) : QOp → QTrace
  | .signal v =>
    match t.q.Signal noWoken v with
    | none => t
    | some r =>
      { q := r.2.1,
        returned := t.returned,
        accepted :=
          if r.1 = true ∧ t.q.waitAbort = 0 then v ::ₘ t.accepted
          else t.accepted }
  | .wait =>
    match t.q.WaitStep with
    | (.got v, q1) =>
      { q := q1, returned := v ::ₘ t.returned, accepted := t.accepted }
    | (.stopIter, q1) => { t with q := q1 }
    | (.blocked, q1) => { t with q := q1 }
  | .abortWait =>
    { q := t.q.AbortWait,
      returned := t.returned,
      accepted :=
        match t.q.queue with
        | h :: _ => t.accepted.erase h
        | [] => t.accepted }
  | .close => { t with q := (t.q.close noWoken).1 }

def qRun (t : QTrace) : List QOp → QTrace
  | [] => t
  | op :: ops => qRun (qStep t op) ops

def qInit (maxLength : Option Nat) : QTrace :=
  ⟨⟨⟨[], 0⟩, 0, [], false, maxLength⟩, 0, 0⟩

/-- The reachable-state invariant: abort credits only coexist with an empty
value queue, and the queue contents balance the conservation ledger. -/
def qInv (t : QTrace) : Prop :=
  (0 < t.q.waitAbort → t.q.queue = []) ∧
  t.returned + (t.q.queue : Multiset Nat) = t.accepted

theorem signal_closed (woken : Nat → Bool) (q : EventQueue) (v : Nat)
    (h : q.closed = true) : q.Signal woken v = none := by
  simp [EventQueue.Signal, h]

theorem signal_reject (woken : Nat → Bool) (q : EventQueue) (v m : Nat)
    (hc : q.closed = false) (hm : q.maxLength = some m)
    (hlen : ¬ q.queue.length < m) :
    q.Signal woken v = some (false, q, []) := by
  simp [EventQueue.Signal, hc, hm, hlen]

theorem signal_append (woken : Nat → Bool) (q : EventQueue) (v : Nat)
    (hc : q.closed = false) (ha : q.waitAbort = 0)
    (hcap : (match q.maxLength with
             | none => True
             | some m => q.queue.length < m)) :
    q.Signal woken v =
      some (true,
        { q with queue := q.queue ++ [v], waitAbort := 0,
                 waitQueue := (q.waitQueue.wake woken false).1 },
        (q.waitQueue.wake woken false).2) := by
  have hcap2 : (match q.maxLength with
               | none => true
               | some m => decide (q.queue.length < m)) = true := by
    cases hm : q.maxLength with
    | none => rfl
    | some m =>
      rw [hm] at hcap
      simpa using hcap
  simp only [EventQueue.Signal, hc, Bool.false_eq_true, if_false, hcap2, if_true,
    eventWakeup, ha]
  norm_num

theorem signal_abort (woken : Nat → Bool) (q : EventQueue) (v : Nat)
    (hc : q.closed = false) (ha : 0 < q.waitAbort) (hq : q.queue = [])
    (hcap : (match q.maxLength with
             | none => True
             | some m => q.queue.length < m)) :
    q.Signal woken v = some (true, { q with waitAbort := q.waitAbort - 1 }, []) := by
  have hcap2 : (match q.maxLength with
               | none => true
               | some m => decide (q.queue.length < m)) = true := by
    cases hm : q.maxLength with
    | none => rfl
    | some m =>
      rw [hm] at hcap
      simpa using hcap
  simp only [EventQueue.Signal, hc, Bool.false_eq_true, if_false, hcap2, if_true,
    eventWakeup]
  simp [ha, hq]

theorem qStep_inv (t : QTrace) (op : QOp) (h : qInv t) : qInv (qStep t op) := by
  obtain ⟨h1, h2⟩ := h
  cases op with
  | signal v =>
    by_cases hc : t.q.closed
    · simp only [qStep, signal_closed noWoken t.q v hc]
      exact ⟨h1, h2⟩
    · have hc2 : t.q.closed = false := by simpa using hc
      cases hm : t.q.maxLength with
      | none =>
        by_cases ha : t.q.waitAbort = 0
        · simp only [qStep, signal_append noWoken t.q v hc2 ha (by rw [hm]; trivial)]
          constructor
          · intro hx
            simp at hx
          · rw [if_pos ⟨trivial, ha⟩, ← h2, ← Multiset.coe_add, Multiset.coe_singleton,
              ← Multiset.singleton_add]
            abel_nf
        · have hpos : 0 < t.q.waitAbort := Nat.pos_of_ne_zero ha
          have hq := h1 hpos
          simp only [qStep,
            signal_abort noWoken t.q v hc2 hpos hq (by rw [hm]; trivial)]
          refine ⟨fun hx => hq, ?_⟩
          rw [if_neg (by simp [ha])]
          exact h2
      | some m =>
        by_cases hlen : t.q.queue.length < m
        · by_cases ha : t.q.waitAbort = 0
          · simp only [qStep,
              signal_append noWoken t.q v hc2 ha (by rw [hm]; exact hlen)]
            constructor
            · intro hx
              simp at hx
            · rw [if_pos ⟨trivial, ha⟩, ← h2, ← Multiset.coe_add, Multiset.coe_singleton,
                ← Multiset.singleton_add]
              abel_nf
          · have hpos : 0 < t.q.waitAbort := Nat.pos_of_ne_zero ha
            have hq := h1 hpos
            simp only [qStep,
              signal_abort noWoken t.q v hc2 hpos hq (by rw [hm]; exact hlen)]
            refine ⟨fun hx => hq, ?_⟩
            rw [if_neg (by simp [ha])]
            exact h2
        · simp only [qStep, signal_reject noWoken t.q v m hc2 hm hlen]
          refine ⟨h1, ?_⟩
          rw [if_neg (by simp)]
          exact h2
  | wait =>
    cases hq : t.q.queue with
    | cons x rest =>
      simp only [qStep, EventQueue.WaitStep, hq]
      refine ⟨fun hx => absurd (h1 hx) (by simp [hq]), ?_⟩
      rw [hq] at h2
      rw [← h2, ← Multiset.cons_coe, Multiset.cons_add, Multiset.add_cons]
    | nil =>
      by_cases hcl : t.q.closed
      · simp only [qStep, EventQueue.WaitStep, hq, hcl, if_true]
        exact ⟨h1, h2⟩
      · simp only [qStep, EventQueue.WaitStep, hq, hcl, if_false]
        exact ⟨h1, h2⟩
  | abortWait =>
    cases hq : t.q.queue with
    | cons x rest =>
      simp only [qStep, EventQueue.AbortWait, hq, ne_eq]
      rw [if_pos (by simp)]
      refine ⟨fun hx => absurd (h1 hx) (by simp [hq]), ?_⟩
      rw [hq] at h2
      rw [List.tail_cons, ← h2, ← Multiset.cons_coe, Multiset.add_cons,
        Multiset.erase_cons_head]
    | nil =>
      by_cases hcl : t.q.closed
      · simp only [qStep, EventQueue.AbortWait, hq, hcl]
        rw [if_neg (by simp), if_neg (by simp)]
        exact ⟨h1, h2⟩
      · have hcl2 : t.q.closed = false := by simpa using hcl
        simp only [qStep, EventQueue.AbortWait, hq, hcl2, if_true]
        refine ⟨fun hx => rfl, ?_⟩
        rw [hq] at h2
        exact h2
  | close =>
    simp only [qStep, EventQueue.close, eventWakeup]
    rw [if_neg (by simp)]
    exact ⟨fun hx => absurd hx (by simp), h2⟩

theorem qRun_inv (ops : List QOp) (t : QTrace) (h : qInv t) : qInv (qRun t ops) := by
  induction ops generalizing t with
  | nil => exact h
  | cons op ops ih => exact ih _ (qStep_inv t op h)

theorem qInit_inv (maxLength : Option Nat) : qInv (qInit maxLength) := by
  constructor
  · intro _
    rfl
  · rfl

theorem wakeScan_fired (woken : Nat → Bool) (l : List Nat) :
    (wakeScan woken l).2.2.length ≤ 1 ∧
    ((∃ w ∈ l, woken w = false) → (wakeScan woken l).2.2.length = 1) := by
  induction l with
  | nil => simp [wakeScan]
  | cons w ws ih =>
    by_cases hw : woken w = true
    · simp only [wakeScan, if_pos hw]
      refine ⟨ih.1, ?_⟩
      rintro ⟨x, hx, hxf⟩
      rcases List.mem_cons.mp hx with rfl | hx
      · rw [hw] at hxf
        cases hxf
      · exact ih.2 ⟨x, hx, hxf⟩
    · simp [wakeScan, hw]

theorem wake_single_fired (woken : Nat → Bool) (q : WakeupQueue) :
    (q.wake woken false).2.length ≤ 1 ∧
    ((∃ w ∈ q.waiters, woken w = false) → (q.wake woken false).2.length = 1) := by
  by_cases hw : q.waiters = []
  · simp [WakeupQueue.wake, hw]
  · simp only [WakeupQueue.wake, hw, Bool.false_eq_true, if_false, if_neg hw]
    exact wakeScan_fired woken q.waiters

/-- C7: `Signal(v)` on a non-closed queue appends `v` when unbounded or below
`max_length`, wakes at most one waiter (exactly one when a live waiter is
queued) and returns `True`; when the wakeup reports an aborted wait the
just-appended value is removed again, leaving the queue unchanged; at the
length bound it returns `False` and changes nothing.  Consequently, along any
trace of operations from a fresh queue, the multiset of values returned by
completed `Wait()` calls plus the values still queued equals the multiset of
signalled values neither rejected by the bound nor consumed by an aborted
wait. -/
theorem event_queue_signal_conservation :
    (∀ (woken : Nat → Bool) (q : EventQueue) (v : Nat),
      q.closed = false →
      (q.waitAbort = 0 →
        (match q.maxLength with
         | none => True
         | some m => q.queue.length < m) →
        ∃ wq fired,
          q.Signal woken v =
            some (true, { q with queue := q.queue ++ [v], waitQueue := wq },
              fired) ∧
          fired.length ≤ 1 ∧
          ((∃ w ∈ q.waitQueue.waiters, woken w = false) → fired.length = 1)) ∧
      (0 < q.waitAbort → q.queue = [] →
        (match q.maxLength with
         | none => True
         | some m => q.queue.length < m) →
        q.Signal woken v =
          some (true, { q with waitAbort := q.waitAbort - 1 }, [])) ∧
      (∀ m, q.maxLength = some m → ¬ q.queue.length < m →
        q.Signal woken v = some (false, q, []))) ∧
    (∀ (maxLength : Option Nat) (ops : List QOp),
      (qRun (qInit maxLength) ops).returned +
          ((qRun (qInit maxLength) ops).q.queue : Multiset Nat) =
        (qRun (qInit maxLength) ops).accepted) := by
  constructor
  · intro woken q v hc
    refine ⟨fun ha hcap => ?_, fun ha hq hcap => ?_, fun m hm hlen => ?_⟩
    · refine ⟨(q.waitQueue.wake woken false).1, (q.waitQueue.wake woken false).2,
        ?_, (wake_single_fired woken q.waitQueue).1,
        (wake_single_fired woken q.waitQueue).2⟩
      rw [signal_append woken q v hc ha hcap, ← ha]
    · exact signal_abort woken q v hc ha hq hcap
    · exact signal_reject woken q v m hc hm hlen
  · intro maxLength ops
    exact (qRun_inv ops _ (qInit_inv maxLength)).2

/-- Witness for C7: a signal into a below-bound queue with one live waiter,
and conservation along the trace signal 4 (accepted), wait (returns 4),
signal 9 then signal 5 (rejected at the bound of 1), abort-wait (consumes
the 9). -/
theorem event_queue_signal_conservation_witness :
    (∃ wq fired,
      EventQueue.Signal noWoken ⟨⟨[6], 0⟩, 0, [], false, some 2⟩ 4 =
        some (true, { (⟨⟨[6], 0⟩, 0, [], false, some 2⟩ : EventQueue) with
          queue := [] ++ [4], waitQueue := wq }, fired) ∧
      fired.length ≤ 1 ∧
      ((∃ w ∈ [6], noWoken w = false) → fired.length = 1)) ∧
    (qRun (qInit (some 1)) [.signal 4, .wait, .signal 9, .signal 5, .abortWait]).returned +
        ((qRun (qInit (some 1))
            [.signal 4, .wait, .signal 9, .signal 5, .abortWait]).q.queue :
          Multiset Nat) =
      (qRun (qInit (some 1)) [.signal 4, .wait, .signal 9, .signal 5, .abortWait]).accepted :=
  ⟨(event_queue_signal_conservation.1 noWoken ⟨⟨[6], 0⟩, 0, [], false, some 2⟩ 4
      rfl).1 rfl (by norm_num),
   event_queue_signal_conservation.2 (some 1)
     [.signal 4, .wait, .signal 9, .signal 5, .abortWait]⟩

/-- C10: after `close()` the closed flag is set with the queued values kept;
`Signal` on a closed queue fails its assertion (modelled as `none`) without
enqueuing anything, while `Wait` still returns the already-queued values. -/
theorem closed_queue_rejects_signal (woken : Nat → Bool) (q : EventQueue)
    (v : Nat) :
    (q.closed = true → q.Signal woken v = none) ∧
    ((q.close woken).1.closed = true ∧ (q.close woken).1.queue = q.queue) ∧
    (∀ x rest, q.queue = x :: rest →
      q.WaitStep = (.got x, { q with queue := rest })) := by
  refine ⟨fun h => signal_closed woken q v h, ⟨?_, ?_⟩, fun x rest hq => ?_⟩
  · simp [EventQueue.close, eventWakeup]
  · simp [EventQueue.close, eventWakeup]
  · simp [EventQueue.WaitStep, hq]

/-- Witness for C10: a closed queue still holding the value 5 rejects a
signal of 9 and returns 5 to `Wait`. -/
theorem closed_queue_rejects_signal_witness :
    EventQueue.Signal noWoken ⟨⟨[], 0⟩, 0, [5], true, none⟩ 9 = none ∧
    EventQueue.WaitStep ⟨⟨[], 0⟩, 0, [5], true, none⟩ =
      (.got 5, ⟨⟨[], 0⟩, 0, [], true, none⟩) :=
  ⟨(closed_queue_rejects_signal noWoken ⟨⟨[], 0⟩, 0, [5], true, none⟩ 9).1 rfl,
   (closed_queue_rejects_signal noWoken ⟨⟨[], 0⟩, 0, [5], true, none⟩ 9).2.2 5 [] rfl⟩

/-! ### Subscription update merging (catools.py `_Subscription`, lines 295-385)

`__maybe_signal` runs on the CA library thread for each native update;
`__signal` runs on the scheduler thread when a posted callback token is
dispatched.  The trace below interleaves the two.  Tokens are the pending
`__Callback(self.__signal, value)` arguments: `some v` for an all-updates
delivery, `none` for a merged one.  The fields `sinceLast` and `lastVal` are
specification-side instrumentation: the number of native updates received
since the previous user-callback invocation and the most recent value.
-/

structure Delivery where
  value : Nat
  count : Nat
  /-- Instrumentation: native updates since the previous callback. -/
  ghostCount : Nat
  /-- Instrumentation: the most recently received native value. -/
  ghostLast : Option Nat
  deriving DecidableEq, Repr

structure SubState where
  /-- Source `all_updates` flag, fixed at creation. -/
  allUpdates : Bool
  /-- Source `__value`: the latest merged value. -/
  value : Option Nat
  /-- Source `__update_count`. -/
  updateCount : Nat
  /-- Source `__state`: 0 = OPENING, 1 = OPEN, 2 = CLOSED. -/
  status : Nat
  /-- Pending dispatcher tokens. -/
  tokens : List (Option Nat)
  /-- User-callback invocations performed, oldest first. -/
  delivered : List Delivery
  sinceLast : Nat
  lastVal : Option Nat
  deriving DecidableEq, Repr

/-- Source `_Subscription.__maybe_signal` (lines 345-355): with `all_updates` the
value is posted directly, tagged `update_count = 1` at delivery; otherwise it
replaces the latest value under the lock, a merged-delivery token is posted
only when the pending counter was zero, and the counter is incremented. -/
def maybeSignal (s : SubState) (v : Nat) : SubState :=
  let s0 := { s with sinceLast := s.sinceLast + 1, lastVal := some v }
  if s0.allUpdates then { s0 with tokens := s0.tokens ++ [some v] }
  else
    let s1 := { s0 with value := some v }
    let s2 :=
      if s1.updateCount = 0 then { s1 with tokens := s1.tokens ++ [none] }
      else s1
    { s2 with updateCount := s2.updateCount + 1 }

/-- Source `_Subscription.__signal` (lines 357-385) on the head dispatcher token:
skipped entirely on a closed subscription; a `none` token atomically swaps
out the merged value and counter and delivers them; a direct token delivers
its value with `update_count = 1`. -/
def dispatchOne (s : SubState) : SubState :=
  match s.tokens with
  | [] => s
  | tok :: rest =>
    let s0 := { s with tokens := rest }
    if s0.status ≠ 2 then
      match tok with
      | some v =>
        { s0 with delivered := s0.delivered ++ [⟨v, 1, s0.sinceLast, s0.lastVal⟩],
                  sinceLast := 0, lastVal := none }
      | none =>
        { s0 with
            delivered := s0.delivered ++
              [⟨s0.value.getD 0, s0.updateCount, s0.sinceLast, s0.lastVal⟩],
            value := none, updateCount := 0, sinceLast := 0, lastVal := none }
    else s0

inductive SubOp where
  | update (v : Nat)
  | dispatch
  deriving DecidableEq, Repr

def subStep (s : SubState) : SubOp → SubState
  | .update v => maybeSignal s v
  | .dispatch => dispatchOne s

def subRun (s : SubState) : List SubOp → SubState
  | [] => s
  | op :: ops => subRun (subStep s op) ops

def subInit (allUpdates : Bool) : SubState :=
  ⟨allUpdates, none, 0, 1, [], [], 0, none⟩

/-- Reachable-state invariant of a coalescing (`all_updates = False`, open)
subscription: the merged value is the last value received, the pending
counter counts the updates since the last delivery, exactly one merged token
is pending iff the counter is positive, and all past deliveries were
correct. -/
def coalesceInv (s : SubState) : Prop :=
  s.allUpdates = false ∧ s.status = 1 ∧ s.value = s.lastVal ∧
  s.updateCount = s.sinceLast ∧
  ((s.tokens = [] ∧ s.updateCount = 0) ∨
    (s.tokens = [none] ∧ 0 < s.updateCount ∧ s.value.isSome = true)) ∧
  (∀ d ∈ s.delivered, d.count = d.ghostCount ∧ some d.value = d.ghostLast)

/-- Reachable-state invariant of an `all_updates = True` subscription: every
pending token is direct and every past delivery carried count 1. -/
def allUpdatesInv (s : SubState) : Prop :=
  s.allUpdates = true ∧ s.status = 1 ∧
  (∀ t ∈ s.tokens, t.isSome = true) ∧
  (∀ d ∈ s.delivered, d.count = 1)

theorem coalesceInv_step (s : SubState) (op : SubOp) (h : coalesceInv s) :
    coalesceInv (subStep s op) := by
  obtain ⟨hA, hS, hV, hC, hT, hD⟩ := h
  cases op with
  | update v =>
    rcases hT with ⟨ht, hc⟩ | ⟨ht, hc, hv⟩
    · have hstep : subStep s (.update v) =
          { s with value := some v, updateCount := s.updateCount + 1,
                   tokens := s.tokens ++ [none],
                   sinceLast := s.sinceLast + 1, lastVal := some v } := by
        simp [subStep, maybeSignal, hA, hc]
      rw [hstep]
      refine ⟨hA, hS, rfl, by simpa using hC, ?_, hD⟩
      exact Or.inr ⟨by rw [ht]; rfl, Nat.succ_pos _, rfl⟩
    · have hc2 : ¬ s.updateCount = 0 := by omega
      have hstep : subStep s (.update v) =
          { s with value := some v, updateCount := s.updateCount + 1,
                   sinceLast := s.sinceLast + 1, lastVal := some v } := by
        simp [subStep, maybeSignal, hA, hc2]
      rw [hstep]
      refine ⟨hA, hS, rfl, by simpa using hC, ?_, hD⟩
      exact Or.inr ⟨ht, Nat.succ_pos _, rfl⟩
  | dispatch =>
    rcases hT with ⟨ht, hc⟩ | ⟨ht, hc, hv⟩
    · have hstep : subStep s .dispatch = s := by
        simp [subStep, dispatchOne, ht]
      rw [hstep]
      exact ⟨hA, hS, hV, hC, Or.inl ⟨ht, hc⟩, hD⟩
    · obtain ⟨x, hx⟩ := Option.isSome_iff_exists.mp hv
      have hstep : subStep s .dispatch =
          { s with tokens := [],
                   delivered := s.delivered ++
                     [⟨s.value.getD 0, s.updateCount, s.sinceLast, s.lastVal⟩],
                   value := none, updateCount := 0,
                   sinceLast := 0, lastVal := none } := by
        simp [subStep, dispatchOne, ht, hS]
      rw [hstep]
      refine ⟨hA, hS, rfl, rfl, Or.inl ⟨rfl, rfl⟩, ?_⟩
      intro d hd
      rcases List.mem_append.mp hd with hd | hd
      · exact hD d hd
      · have hd2 : d = ⟨s.value.getD 0, s.updateCount, s.sinceLast, s.lastVal⟩ := by
          simpa using hd
        subst hd2
        refine ⟨hC, ?_⟩
        rw [← hV, hx]
        rfl

theorem allUpdatesInv_step (s : SubState) (op : SubOp) (h : allUpdatesInv s) :
    allUpdatesInv (subStep s op) := by
  obtain ⟨hA, hS, hT, hD⟩ := h
  cases op with
  | update v =>
    have hstep : subStep s (.update v) =
        { s with tokens := s.tokens ++ [some v],
                 sinceLast := s.sinceLast + 1, lastVal := some v } := by
      simp [subStep, maybeSignal, hA]
    rw [hstep]
    refine ⟨hA, hS, ?_, hD⟩
    intro t ht2
    rcases List.mem_append.mp ht2 with ht2 | ht2
    · exact hT t ht2
    · have : t = some v := by simpa using ht2
      rw [this]
      rfl
  | dispatch =>
    cases ht : s.tokens with
    | nil =>
      have hstep : subStep s .dispatch = s := by
        simp [subStep, dispatchOne, ht]
      rw [hstep]
      exact ⟨hA, hS, hT, hD⟩
    | cons tok rest =>
      have htok : tok.isSome = true :=
        hT tok (by rw [ht]; exact List.mem_cons_self _ _)
      obtain ⟨v, hv⟩ := Option.isSome_iff_exists.mp htok
      have hstep : subStep s .dispatch =
          { s with tokens := rest,
                   delivered := s.delivered ++ [⟨v, 1, s.sinceLast, s.lastVal⟩],
                   sinceLast := 0, lastVal := none } := by
        simp [subStep, dispatchOne, ht, hv, hS]
      rw [hstep]
      refine ⟨hA, hS, ?_, ?_⟩
      · intro t2 ht2
        exact hT t2 (by rw [ht]; exact List.mem_cons_of_mem _ ht2)
      · intro d hd
        rcases List.mem_append.mp hd with hd | hd
        · exact hD d hd
        · have hd2 : d = ⟨v, 1, s.sinceLast, s.lastVal⟩ := by simpa using hd
          subst hd2
          rfl

theorem subRun_inv_false (ops : List SubOp) (s : SubState) (h : coalesceInv s) :
    coalesceInv (subRun s ops) := by
  induction ops generalizing s with
  | nil => exact h
  | cons op ops ih => exact ih _ (coalesceInv_step s op h)

theorem subRun_inv_true (ops : List SubOp) (s : SubState) (h : allUpdatesInv s) :
    allUpdatesInv (subRun s ops) := by
  induction ops generalizing s with
  | nil => exact h
  | cons op ops ih => exact ih _ (allUpdatesInv_step s op h)

theorem subInit_coalesceInv : coalesceInv (subInit false) := by
  refine ⟨rfl, rfl, rfl, rfl, Or.inl ⟨rfl, rfl⟩, ?_⟩
  intro d hd
  simp [subInit] at hd

theorem subInit_allUpdatesInv : allUpdatesInv (subInit true) := by
  refine ⟨rfl, rfl, ?_, ?_⟩
  · intro t ht
    simp [subInit] at ht
  · intro d hd
    simp [subInit] at hd

/-- C3: along every interleaving of native updates and dispatcher runs, a
subscription created with `all_updates = False` delivers on each user
callback the most recently received value tagged with `update_count` equal
to the number of native updates received since the previous callback
invocation; a subscription created with `all_updates = True` carries
`update_count = 1` on every callback invocation. -/
theorem subscription_update_count (ops : List SubOp) :
    (∀ d ∈ (subRun (subInit false) ops).delivered,
      d.count = d.ghostCount ∧ some d.value = d.ghostLast) ∧
    (∀ d ∈ (subRun (subInit true) ops).delivered, d.count = 1) :=
  ⟨(subRun_inv_false ops _ subInit_coalesceInv).2.2.2.2.2,
   (subRun_inv_true ops _ subInit_allUpdatesInv).2.2.2⟩

/-- Witness for C3: two updates (5 then 7) followed by one dispatch: the
coalescing subscription delivers value 7 with `update_count = 2`; the
all-updates subscription delivers value 5 with `update_count = 1`. -/
theorem subscription_update_count_witness :
    (subRun (subInit false) [.update 5, .update 7, .dispatch]).delivered =
      [⟨7, 2, 2, some 7⟩] ∧
    (subRun (subInit true) [.update 5, .update 7, .dispatch]).delivered =
      [⟨5, 1, 2, some 7⟩] ∧
    (∀ d ∈ (subRun (subInit false) [.update 5, .update 7, .dispatch]).delivered,
      d.count = d.ghostCount ∧ some d.value = d.ghostLast) ∧
    (∀ d ∈ (subRun (subInit true) [.update 5, .update 7, .dispatch]).delivered,
      d.count = 1) :=
  ⟨by decide, by decide,
   (subscription_update_count [.update 5, .update 7, .dispatch]).1,
   (subscription_update_count [.update 5, .update 7, .dispatch]).2⟩

end Cothread
